import Mathlib

/-
  Verification of the festivus terminal rendering compositor.

  Shallow embedding of the Go sources:
    - src/ui/compositor.go   (Compositor, calculateColumnWidths, Render,
                              visualWidth, stripANSI, padToWidth, truncateToWidth)
    - src/ui/column.go       (Column, RenderState)
    - the minimap renderer   (MinimapRenderer.Render, renderBrailleRow,
                              hasContentAt, GetMetrics, RowToLine)
    - the line-number gutter (renderNoWrap, padLeftStr, itoaLocal)

  Go strings are modelled as Lean `String` (a list of runes); Go `int` as `Int`
  (or `Nat` where the surrounding guard makes the value nonnegative); Go
  `float64` as `ℚ` (the claims are settled at values where float arithmetic is
  exact); Go run-time panics (`strings.Repeat` with a negative count,
  `make` with a negative length) as `Option.none`.
-/

set_option autoImplicit false

/-! ### Text measurement (src/ui/compositor.go, lines 158-232) -/

/-- Display-cell width of one rune.  Models the `go-runewidth` dependency
    (`runewidth.RuneWidth`), which is a third-party library, not repository
    code: control characters and zero-width/combining marks count 0 cells,
    East-Asian wide blocks count 2, everything else counts 1. -/
def runeWidth (c : Char) : Nat :=
  let n := c.toNat
  if n < 0x20 ∨ n = 0x7F then 0
  else if (0x0300 ≤ n ∧ n ≤ 0x036F) ∨ (0x200B ≤ n ∧ n ≤ 0x200F) then 0
  else if (0x1100 ≤ n ∧ n ≤ 0x115F) ∨ (0x2E80 ≤ n ∧ n ≤ 0x303E) ∨
          (0x3041 ≤ n ∧ n ≤ 0x33FF) ∨ (0x3400 ≤ n ∧ n ≤ 0x4DBF) ∨
          (0x4E00 ≤ n ∧ n ≤ 0x9FFF) ∨ (0xA000 ≤ n ∧ n ≤ 0xA4CF) ∨
          (0xAC00 ≤ n ∧ n ≤ 0xD7A3) ∨ (0xF900 ≤ n ∧ n ≤ 0xFAFF) ∨
          (0xFE30 ≤ n ∧ n ≤ 0xFE4F) ∨ (0xFF00 ≤ n ∧ n ≤ 0xFF60) ∨
          (0xFFE0 ≤ n ∧ n ≤ 0xFFE6) ∨ (0x20000 ≤ n ∧ n ≤ 0x2FFFD) ∨
          (0x30000 ≤ n ∧ n ≤ 0x3FFFD) then 2
  else 1

/-- Sum of rune widths of a rune sequence (`runewidth.StringWidth`). -/
def widthChars : List Char → Nat
  | [] => 0
  | c :: cs => runeWidth c + widthChars cs

/-- The terminator test used by `stripANSI` and `truncateToWidth`:
    `(r >= 'a' && r <= 'z') || (r >= 'A' && r <= 'Z')`. -/
def isAsciiLetter (c : Char) : Bool :=
  decide ((97 ≤ c.toNat ∧ c.toNat ≤ 122) ∨ (65 ≤ c.toNat ∧ c.toNat ≤ 90))

/-- The rune loop of `stripANSI` (compositor.go lines 164-181): the Boolean
    argument is the `inEscape` flag. -/
def stripAux : Bool → List Char → List Char
  | _, [] => []
  | inEscape, c :: cs =>
    if c = '\x1b' then stripAux true cs
    else if inEscape then
      if isAsciiLetter c then stripAux false cs else stripAux true cs
    else c :: stripAux false cs

/-- The value of the `inEscape` flag after the `stripANSI` loop has consumed
    the whole rune sequence (same state machine as `stripAux`). -/
def escState : Bool → List Char → Bool
  | b, [] => b
  | inEscape, c :: cs =>
    if c = '\x1b' then escState true cs
    else if inEscape then
      if isAsciiLetter c then escState false cs else escState true cs
    else escState false cs

/-- `stripANSI` removes ANSI escape sequences from a string
    (compositor.go lines 163-181). -/
def stripANSI (s : String) : String :=
  ⟨stripAux false s.data⟩

/-- `visualWidth` calculates the visible width of a string, ignoring ANSI
    escape codes (compositor.go lines 158-161). -/
def visualWidth (s : String) : Nat :=
  widthChars (stripAux false s.data)

/-- The rune loop of `truncateToWidth` (compositor.go lines 204-224).
    Arguments: `inEscape` flag, accumulated visible width `pos`, target
    `width`; returns the runes written and the final visible width.
    Escape runes are passed through; the loop stops (`break`) before any
    visible rune whose inclusion would exceed `width`. -/
def truncAux : Bool → Nat → Nat → List Char → List Char × Nat
  | _, pos, _, [] => ([], pos)
  | inEscape, pos, width, c :: cs =>
    if c = '\x1b' then
      let r := truncAux true pos width cs
      (c :: r.1, r.2)
    else if inEscape then
      let r := truncAux (if isAsciiLetter c then false else true) pos width cs
      (c :: r.1, r.2)
    else
      let rw := runeWidth c
      if pos + rw > width then ([], pos)
      else
        let r := truncAux false (pos + rw) width cs
        (c :: r.1, r.2)

/-- `truncateToWidth` truncates a string with ANSI codes to a visual width
    (compositor.go lines 198-232); if the kept runes end short of `width`
    (a wide glyph was rejected at the boundary) it pads with spaces. -/
def truncateToWidth (s : String) (width : Nat) : String :=
  let r := truncAux false 0 width s.data
  ⟨r.1 ++ List.replicate (width - r.2) ' '⟩

/-- `padToWidth` pads a string (which may contain ANSI codes) to exactly the
    target visual width, truncating when it is too long
    (compositor.go lines 183-196). -/
def padToWidth (s : String) (width : Nat) : String :=
  let vw := visualWidth s
  if vw = width then s
  else if vw > width then truncateToWidth s width
  else ⟨s.data ++ List.replicate (width - vw) ' '⟩

/-! ### Data model (src/ui/column.go) -/

/-- Modelled from the spec: the theme resolves logical color roles to terminal
    color codes (the `Color` type and `ColorToANSIFg` live in a repository file
    that is not under src/).  A color is modelled as carrying the foreground
    escape code it resolves to. -/
structure Color where
  fg : String

/-- Modelled from the spec: resolves a logical color to its terminal
    foreground code (repository function not under src/). -/
def ColorToANSIFg (c : Color) : String := c.fg

/-- The UI color roles read by the gutter and minimap renderers.  Modelled
    from the spec: a theme/style bundle resolving logical roles (gutter text,
    active gutter, minimap indicator, minimap text) to terminal color codes. -/
structure UIColors where
  lineNumber : Color
  lineNumberActive : Color
  minimapIndicator : Color
  minimapText : Color

/-- The theme part of the style bundle (see `UIColors`). -/
structure Theme where
  ui : UIColors

/-- The style bundle handed to renderers. -/
structure Styles where
  theme : Theme

/-- Modelled from the spec: a half-open range of rune indices plus an opaque
    color tag (the `syntax.ColorSpan` type is not under src/). -/
structure ColorSpan where
  startIdx : Int
  endIdx : Int
  colorTag : String

/-- Modelled from the spec: a per-line selection range (`SelectionRange` is
    defined in viewport.go, which is not under src/). -/
structure SelectionRange where
  startCol : Int
  endCol : Int

/-- `RenderState` holds shared state passed to all column renderers
    (column.go lines 25-53). The Go maps keyed by line index are modelled as
    functions. -/
structure RenderState where
  lines : List String
  cursorLine : Int
  cursorCol : Int
  scrollY : Int
  scrollX : Int
  selection : Int → Option SelectionRange
  lineColors : Int → List ColorSpan
  wordWrap : Bool
  tabWidth : Int
  totalLines : Int
  totalVisualLines : Int
  styles : Styles

/-- The `ColumnRenderer` capability (column.go lines 9-13): a renderer is its
    `Render(width, height, state) -> rows` function; the state pointer may be
    nil (`Option`). -/
def RendererFun : Type := Int → Int → Option RenderState → List String

/-- `Column` represents a single column in the compositor layout
    (column.go lines 16-21).  The `Renderer` interface value may be nil. -/
structure Column where
  width : Int
  flexible : Bool
  enabled : Bool
  renderer : Option RendererFun

/-! ### calculateColumnWidths (src/ui/compositor.go, lines 67-96)

The Go function makes two passes over the column array.  The first pass is
split here into its three outputs: the fixed widths written into `widths`
(`preWidths`), the accumulated `usedWidth`, and the final value of
`flexibleIdx` (`lastFlexIdx` - the Go loop overwrites it, so the last
enabled flexible column wins).  The second pass sets the flexible slot. -/

/-- First pass of `calculateColumnWidths`: the `widths` array before the
    flexible column is assigned (disabled and flexible columns hold 0). -/
def preWidths : List Column → List Int
  | [] => []
  | c :: cs => (if c.enabled && !c.flexible then c.width else 0) :: preWidths cs

/-- First pass of `calculateColumnWidths`: the `usedWidth` accumulator
    (sum of the declared widths of enabled fixed columns). -/
def usedWidth : List Column → Int
  | [] => 0
  | c :: cs => (if c.enabled && !c.flexible then c.width else 0) + usedWidth cs

/-- First pass of `calculateColumnWidths`: the final value of `flexibleIdx`.
    The Go loop assigns `flexibleIdx = i` for every enabled flexible column,
    so the last one wins. -/
def lastFlexIdx : List Column → Option Nat
  | [] => none
  | c :: cs =>
    match lastFlexIdx cs with
    | some j => some (j + 1)
    | none => if c.enabled && c.flexible then some 0 else none

/-- `calculateColumnWidths` determines the actual width for each enabled
    column (compositor.go lines 67-96): fixed columns get their specified
    width; the flexible column gets the remainder, floored at 1. -/
def calculateColumnWidths (w : Int) (cols : List Column) : List Int :=
  match lastFlexIdx cols with
  | none => preWidths cols
  | some j =>
    let remaining := w - usedWidth cols
    (preWidths cols).set j (if remaining < 1 then 1 else remaining)

/-- The lookup loop of `FlexibleColumnWidth` (compositor.go lines 102-106):
    walks columns and resolved widths in step, returning the resolved width
    of the first enabled flexible column. -/
def flexLookup : List Column → List Int → Option Int
  | c :: cs, wI :: ws => if c.enabled && c.flexible then some wI else flexLookup cs ws
  | _, _ => none

/-- `FlexibleColumnWidth` returns the calculated width of the flexible
    column, or the full compositor width when there is none
    (compositor.go lines 100-108). -/
def FlexibleColumnWidth (w : Int) (cols : List Column) : Int :=
  match flexLookup cols (calculateColumnWidths w cols) with
  | some x => x
  | none => w

/-! ### Compositor.Render (src/ui/compositor.go, lines 111-156)

Run-time panics are modelled by `Option.none`: Go's `strings.Repeat` panics
on a negative count. -/

/-- `strings.Repeat(" ", n)` - panics (`none`) on a negative count. -/
def stringsRepeatSpace (n : Int) : Option String :=
  if n < 0 then none else some ⟨List.replicate n.toNat ' '⟩

/-- The row-count repair of `Render` (compositor.go lines 130-138): a column
    output with fewer than `height` rows is padded with blank rows of the
    column's resolved width, one with more is truncated to `height` rows. -/
def fixRows (wI : Int) (hN : Nat) (rows : List String) : Option (List String) :=
  if rows.length < hN then
    match stringsRepeatSpace wI with
    | none => none
    | some blank => some (rows ++ List.replicate (hN - rows.length) blank)
  else if hN < rows.length then some (rows.take hN)
  else some rows

/-- One column's rows as used by `Render` (compositor.go lines 120-139):
    disabled, zero-width or renderer-less columns produce empty rows,
    otherwise the renderer is invoked and its output repaired. -/
def columnOutput (wI : Int) (h : Int) (st : Option RenderState) (c : Column) :
    Option (List String) :=
  match c.renderer with
  | none => some (List.replicate h.toNat "")
  | some f =>
    if !c.enabled || wI == 0 then some (List.replicate h.toNat "")
    else fixRows wI h.toNat (f wI h st)

/-- All columns' repaired outputs, in column order. -/
def columnOutputs : List Column → List Int → Int → Option RenderState →
    Option (List (List String))
  | [], _, _, _ => some []
  | c :: cs, wI :: ws, h, st =>
    match columnOutput wI h st c, columnOutputs cs ws h st with
    | some o, some os => some (o :: os)
    | _, _ => none
  | _ :: _, [], _, _ => some []

/-- One output row (compositor.go lines 147-152): the row's content from
    every enabled nonzero-width column, concatenated in column order with no
    separator. -/
def rowString : List Column → List Int → List (List String) → Nat → String
  | c :: cs, wI :: ws, o :: os, r =>
    (if c.enabled && wI != 0 then o.getD r "" else "") ++ rowString cs ws os r
  | _, _, _, _ => ""

/-- The Go builder writes `"\n"` before every row except the first
    (compositor.go lines 143-146). -/
def joinLines : List String → String
  | [] => ""
  | [x] => x
  | x :: xs => x ++ "\n" ++ joinLines xs

/-- `Compositor.Render` (compositor.go lines 111-156): renders all enabled
    columns and joins them horizontally; `none` models a run-time panic. -/
def compositorRender (w : Int) (h : Int) (cols : List Column)
    (st : Option RenderState) : Option String :=
  if cols.isEmpty = true ∨ h ≤ 0 then some ""
  else
    let widths := calculateColumnWidths w cols
    match columnOutputs cols widths h st with
    | none => none
    | some outs =>
      some (joinLines ((List.range h.toNat).map (rowString cols widths outs)))

/-! ### Minimap renderer (the minimap source file of this repository)

Go `float64` arithmetic is modelled by exact rationals; `int(f)` is
truncation toward zero. -/

/-- Go's `int(f)` conversion: truncation toward zero. -/
def goTrunc (q : ℚ) : Int :=
  if q < 0 then -((-q).floor) else q.floor

/-- `maxLineLen` as computed by `MinimapRenderer.Render`: starts from the
    default minimum 80 and takes the maximum rune count over all document
    lines. -/
def maxLineLen (lines : List String) : Nat :=
  lines.foldl (fun m l => max m l.data.length) 80

/-- The scale factor computed inside `renderBrailleRow`:
    `charsPerBraille = maxLineLen / width`, floored at 1. -/
def charsPerBraille (maxLen width : Nat) : ℚ :=
  let q : ℚ := (maxLen : ℚ) / (width : ℚ)
  if q < 1 then 1 else q

/-- `hasContentAt` checks whether a line has non-whitespace content in the
    given column range (space and tab do not count). -/
def hasContentAt (lr : List Char) (start endI : Int) : Bool :=
  let s := if start < 0 then 0 else start
  let e := if endI > (lr.length : Int) then (lr.length : Int) else endI
  ((lr.drop s.toNat).take (e - s).toNat).any (fun c => !(c == ' ' || c == '\t'))

/-- Braille dot bit for the left column at a dot row (dots 1,2,3,7). -/
def brailleDotLeft : Nat → Nat
  | 0 => 0x01
  | 1 => 0x02
  | 2 => 0x04
  | _ => 0x40

/-- Braille dot bit for the right column at a dot row (dots 4,5,6,8). -/
def brailleDotRight : Nat → Nat
  | 0 => 0x08
  | 1 => 0x10
  | 2 => 0x20
  | _ => 0x80

/-- One braille character: starting from the empty braille codepoint 0x2800,
    OR in the dot bit for every (dot row, half-column) cell that has
    content. -/
def brailleCell (samples : List (List Char)) (s m e : Int) : Char :=
  let pattern := (List.range 4).foldl
    (fun pat ro =>
      let lr := samples.getD ro []
      let pat1 := if hasContentAt lr s m then pat ||| brailleDotLeft ro else pat
      if hasContentAt lr m e then pat1 ||| brailleDotRight ro else pat1)
    0x2800
  Char.ofNat pattern

/-- The sampling loop of `renderBrailleRow`: starting at `i`, step `step`
    (which the caller floors at 1), collect up to 4 lines with index below
    `endL`; the in-bounds access guard of the Go code is kept. -/
def sampleLoop (lines : List String) (endL step : Int) (hstep : 1 ≤ step)
    (i : Int) (acc : List (List Char)) : List (List Char) :=
  if h : i < endL ∧ acc.length < 4 then
    sampleLoop lines endL step hstep (i + step)
      (if i < (lines.length : Int) then acc ++ [(lines.getD i.toNat "").data] else acc)
  else acc
termination_by (endL - i).toNat
decreasing_by
  obtain ⟨h1, h2⟩ := h
  omega

/-- The sampled rows for one braille row: stride
    `max(1, (endLine-startLine)/4)` (Go integer division truncates toward
    zero), then pad with empty lines up to 4. -/
def sampleRows (lines : List String) (startL endL : Int) : List (List Char) :=
  let step0 := Int.tdiv (endL - startL) 4
  if hs : step0 < 1 then
    let r := sampleLoop lines endL 1 (by omega) startL []
    r ++ List.replicate (4 - r.length) []
  else
    let r := sampleLoop lines endL step0 (by omega) startL []
    r ++ List.replicate (4 - r.length) []

/-- The per-glyph loop of `renderBrailleRow`: for column `c`, the source span
    is `[trunc(c*cpb), trunc((c+1)*cpb))`, bisected at the integer midpoint. -/
def brailleCols (samples : List (List Char)) (cpb : ℚ) (width : Nat) : List Char :=
  (List.range width).map (fun col =>
    let s := goTrunc ((col : ℚ) * cpb)
    let e := goTrunc (((col : ℚ) + 1) * cpb)
    let m := Int.tdiv (s + e) 2
    brailleCell samples s m e)

/-- `renderBrailleRow` converts document lines to a braille string.
    `width` is the braille body width (the guarded caller always passes a
    positive value, so it is taken as `Nat`); `maxLen` is the document-wide
    maximum line length, passed in by `Render` for consistent scaling. -/
def renderBrailleRow (lines : List String) (startLine endLine : Int)
    (width maxLen : Nat) : String :=
  if lines.length = 0 ∨ (lines.length : Int) ≤ startLine then
    ⟨List.replicate width ' '⟩
  else
    let endL := if endLine > (lines.length : Int) then (lines.length : Int) else endLine
    let startL := if startLine < 0 then 0 else startLine
    let samples := sampleRows lines startL endL
    let cpb := charsPerBraille maxLen width
    ⟨brailleCols samples cpb width⟩

/-- The reset escape code written after every colored fragment. -/
def resetCode : String := "\x1b[0m"

/-- One row of the minimap main path (`MinimapRenderer.Render` row loop):
    viewport indicator cell, braille body rendered with the document-wide
    `maxLen`, and a trailing space.  `lpr` is `linesPerRow`, `t` the effective
    total line count, `[visibleStart, visibleEnd)` the viewport range. -/
def minimapRowAt (styles : Styles) (lines : List String) (lpr : ℚ) (t : Int)
    (visibleStart visibleEnd : Int) (brailleWidth : Nat) (maxLen : Nat)
    (row : Nat) : String :=
  let ds := goTrunc ((row : ℚ) * lpr)
  let de0 := goTrunc (((row : ℚ) + 1) * lpr)
  let de := if de0 > t then t else de0
  let ind :=
    if ds < visibleEnd ∧ visibleStart < de then
      ColorToANSIFg styles.theme.ui.minimapIndicator ++ "│" ++ resetCode
    else " "
  ind ++ ColorToANSIFg styles.theme.ui.minimapText
      ++ renderBrailleRow lines ds de brailleWidth maxLen ++ resetCode ++ " "

/-- The effective document extent used by the minimap row mapping: total
    visual lines when word wrap is active (and positive), else the total
    buffer-line count with 0 lifted to 1. -/
def minimapEffectiveTotal (state : RenderState) : Int :=
  let t1 := if state.totalLines = 0 then 1 else state.totalLines
  if state.wordWrap && state.totalVisualLines > 0 then state.totalVisualLines
  else t1

/-- The `linesPerRow` scale of the minimap row loop: effective extent over
    height, floored at 1 (the word-wrap branch of the Go code recomputes it
    from the visual-line count, which is exactly the effective extent). -/
def minimapLinesPerRow (height : Int) (state : RenderState) : ℚ :=
  let t := minimapEffectiveTotal state
  if (t : ℚ) / (height : ℚ) < 1 then 1 else (t : ℚ) / (height : ℚ)

/-- The non-degenerate path of `MinimapRenderer.Render` (enabled, positive
    width and height, state present). -/
def minimapMain (styles : Styles) (width height : Int) (state : RenderState) :
    List String :=
  let brailleWidth := if width - 2 < 1 then 1 else width - 2
  let visibleStart := state.scrollY
  let visibleEnd := state.scrollY + height
  let maxLen := maxLineLen state.lines
  (List.range height.toNat).map
    (minimapRowAt styles state.lines (minimapLinesPerRow height state)
      (minimapEffectiveTotal state) visibleStart visibleEnd
      brailleWidth.toNat maxLen)

/-- The degenerate branch of `MinimapRenderer.Render`: Go's
    `make([]string, height)` panics for a negative height, and the fill loop
    `strings.Repeat(" ", width)` panics for a negative width whenever at
    least one row exists. -/
def minimapRenderDegenerate (width height : Int) : Option (List String) :=
  if height < 0 then none
  else if height = 0 then some []
  else
    match stringsRepeatSpace width with
    | none => none
    | some blank => some (List.replicate height.toNat blank)

/-- `MinimapRenderer.Render`: blank rows when disabled or given degenerate
    input, else the braille main path; `none` models a run-time panic. -/
def minimapRender (enabled : Bool) (styles : Styles) (width height : Int)
    (state? : Option RenderState) : Option (List String) :=
  match state? with
  | none => minimapRenderDegenerate width height
  | some state =>
    if !enabled || width ≤ 0 || height ≤ 0 then minimapRenderDegenerate width height
    else some (minimapMain styles width height state)

/-! ### Minimap metrics (GetMetrics / RowToLine) -/

/-- `MinimapMetrics` returned by `GetMetrics` for mouse interaction. -/
structure MinimapMetrics where
  linesPerRow : ℚ
  totalLines : Int
  height : Int

/-- `GetMetrics` calculates minimap metrics for a given state: effective
    extent (visual lines when word wrap is active, floored at 1) and the
    document-lines-per-minimap-row ratio, floored at 1. -/
def GetMetrics (height : Int) (state : RenderState) : MinimapMetrics :=
  let t0 :=
    if state.wordWrap && state.totalVisualLines > 0 then state.totalVisualLines
    else state.totalLines
  let t := if t0 = 0 then 1 else t0
  let lpr : ℚ :=
    if (t : ℚ) / (height : ℚ) < 1 then 1 else (t : ℚ) / (height : ℚ)
  ⟨lpr, t, height⟩

/-- `RowToLine` converts a minimap row click to a document line, clamping
    into `[0, totalLines - 1]`. -/
def RowToLine (row : Int) (m : MinimapMetrics) : Int :=
  let line := goTrunc ((row : ℚ) * m.linesPerRow)
  if line < 0 then 0
  else if m.totalLines ≤ line then m.totalLines - 1
  else line

/-! ### Gutter renderer, no-wrap mode (the line-number source file) -/

/-- The digit loop of `itoaLocal` (most significant digit first). -/
def itoaDigits : Nat → List Char
  | 0 => []
  | n + 1 => itoaDigits ((n + 1) / 10) ++ [Char.ofNat (48 + (n + 1) % 10)]
decreasing_by
  exact Nat.div_lt_self (Nat.succ_pos n) (by omega)

/-- `itoaLocal` converts an int to a string (gutter source file). -/
def itoaLocal (n : Int) : String :=
  if n = 0 then "0"
  else if n < 0 then ⟨'-' :: itoaDigits n.natAbs⟩
  else ⟨itoaDigits n.natAbs⟩

/-- `padLeftStr` pads a string with spaces on the left to reach the target
    width.  Go measures `len(s)` in bytes; the strings padded here are ASCII
    numerals, for which byte length and rune count coincide. -/
def padLeftStr (s : String) (width : Nat) : String :=
  if width ≤ s.data.length then s
  else ⟨List.replicate (width - s.data.length) ' ' ++ s.data⟩

/-- `renderNoWrap` (gutter source file, lines 44-74): row `r` shows the
    1-based number of document line `scrollY + r` right-justified in the
    numeral field of `numWidth` cells plus a separator space, in the active
    color on the cursor line; past-end rows are blank.  The guarded caller
    passes `width ≥ 1` and `numWidth = width - 1`. -/
def renderNoWrap (styles : Styles) (width numWidth height : Nat)
    (state : RenderState) : List String :=
  (List.range height).map (fun (row : Nat) =>
    let lineIdx : Int := state.scrollY + (row : Int)
    if lineIdx < (state.lines.length : Int) then
      let numStr := padLeftStr (itoaLocal (lineIdx + 1)) numWidth
      (if lineIdx = state.cursorLine then
        ColorToANSIFg styles.theme.ui.lineNumberActive
       else ColorToANSIFg styles.theme.ui.lineNumber)
        ++ numStr ++ resetCode ++ " "
    else ⟨List.replicate width ' '⟩)

/-! ### Spec-side definitions (refinement comparisons)

These two definitions follow the spec's words, not the source; they exist
only to be compared with the source-derived definitions above. -/

/-- Spec's words: the rune length of the single longest line of the
    document. -/
def specLongestLineLen (lines : List String) : Nat :=
  lines.foldl (fun m l => max m l.data.length) 0

/-- Spec's words: `charsPerBraille = maxLineLength / brailleBodyWidth`
    (minimum 1), where `maxLineLength` is the longest line's rune length. -/
def specCharsPerBraille (lines : List String) (brailleBodyWidth : Nat) : ℚ :=
  let q : ℚ := (specLongestLineLen lines : ℚ) / (brailleBodyWidth : ℚ)
  if q < 1 then 1 else q

/-! ### Claim-statement helpers -/

/-- Sum of the resolved widths of enabled columns (walking the column list
    and a resolved-width list in step). -/
def enabledWidthSum : List Column → List Int → Int
  | c :: cs, wI :: ws => (if c.enabled then wI else 0) + enabledWidthSum cs ws
  | _, _ => 0

/-- Sum of the resolved widths of the columns `Render` actually joins
    (enabled and nonzero resolved width). -/
def usedWidthSum : List Column → List Int → Int
  | c :: cs, wI :: ws =>
    (if c.enabled && wI != 0 then wI else 0) + usedWidthSum cs ws
  | _, _ => 0

/-- A well-formed renderer row for a column of resolved width `wI`: its
    visible width is `wI`, it does not end inside an unterminated escape
    sequence, and it contains no newline. -/
def RowOk (wI : Int) (row : String) : Prop :=
  (visualWidth row : Int) = wI ∧ escState false row.data = false ∧ '\n' ∉ row.data

instance (wI : Int) (row : String) : Decidable (RowOk wI row) := by
  unfold RowOk
  infer_instance

/-- The renderer contract hypothesis of claim C3, stated along the column
    and resolved-width lists: every enabled column with nonzero resolved
    width has positive width, a renderer, and that renderer's rows are all
    well formed. -/
def GoodCols (h : Int) (st : Option RenderState) : List Column → List Int → Prop
  | [], [] => True
  | c :: cs, wI :: ws =>
    (c.enabled = true → wI ≠ 0 →
      0 < wI ∧ ∃ f, c.renderer = some f ∧ ∀ row ∈ f wI h st, RowOk wI row) ∧
    GoodCols h st cs ws
  | _, _ => False

/-- Nonnegative resolved width for every column `Render` invokes a renderer
    for (the producibility hypothesis of claim C4). -/
def UsedNonneg : List Column → List Int → Prop
  | [], [] => True
  | c :: cs, wI :: ws =>
    (c.enabled = true → wI ≠ 0 → c.renderer ≠ none → 0 ≤ wI) ∧ UsedNonneg cs ws
  | _, _ => False

/-! ### Concrete fixtures used by counterexamples and witnesses -/

/-- A concrete style bundle. -/
def demoStyles : Styles :=
  ⟨⟨⟨⟨"\x1b[90m"⟩, ⟨"\x1b[97m"⟩, ⟨"\x1b[36m"⟩, ⟨"\x1b[34m"⟩⟩⟩⟩

/-- A concrete render state over the given lines and totals. -/
def mkState (lines : List String) (tl tvl : Int) (wrap : Bool)
    (sy cur : Int) : RenderState :=
  ⟨lines, cur, 0, sy, 0, fun _ => none, fun _ => [], wrap, 4, tl, tvl, demoStyles⟩

/-- A renderer that fills every cell of its allocation with one character. -/
def fillRenderer (ch : Char) : RendererFun :=
  fun w h _ => List.replicate h.toNat ⟨List.replicate w.toNat ch⟩

/-- A single enabled fixed column of declared width 5 (no flexible column
    anywhere): the configuration of the C2 and C3 counterexamples. -/
def soloFixedCols : List Column :=
  [⟨5, false, true, some (fillRenderer 'X')⟩]

/-- A disabled column, an enabled fixed column and an enabled flexible
    column: the configuration of the C2 witness. -/
def demoCols : List Column :=
  [⟨7, false, false, none⟩, ⟨5, false, true, none⟩, ⟨0, true, true, none⟩]

/-- Two columns (fixed width 1, flexible) with well-behaved renderers over a
    width-3 compositor: the configuration of the C3 witness. -/
def goodCols : List Column :=
  [⟨1, false, true, some (fillRenderer 'A')⟩, ⟨0, true, true, some (fillRenderer 'B')⟩]

/-- Per-column goodness of the repaired outputs used by the `Render` row
    join: every enabled nonzero-width column's rows number exactly `hN` and
    are all well formed. -/
def OutsGood (hN : Nat) : List Column → List Int → List (List String) → Prop
  | [], [], [] => True
  | c :: cs, wI :: ws, o :: os =>
    ((c.enabled = true ∧ wI ≠ 0) → (o.length = hN ∧ ∀ row ∈ o, RowOk wI row)) ∧
    OutsGood hN cs ws os
  | _, _, _ => False

/-- A state with four buffer lines, used against a height-2 minimap. -/
def stateExtent4 : RenderState := mkState [] 4 0 false 0 0

/-- A state with two buffer lines, used against a height-3 minimap. -/
def stateExtent2 : RenderState := mkState [] 2 0 false 0 0

/-- A one-line document state for minimap and gutter witnesses. -/
def tinyState : RenderState := mkState ["a"] 1 0 false 0 0

/-- A two-line document state for the gutter witness (cursor on line 0). -/
def gutterState : RenderState := mkState ["a", "b"] 2 0 false 0 0

/-! ### Lemmas about text measurement -/

theorem widthChars_append (a : List Char) :
    ∀ b : List Char, widthChars (a ++ b) = widthChars a + widthChars b := by
  induction a with
  | nil => intro b; simp [widthChars]
  | cons c a ih => intro b; simp [widthChars, ih]; omega

theorem escState_append (a : List Char) :
    ∀ (b : List Char) (bl : Bool),
      escState bl (a ++ b) = escState (escState bl a) b := by
  induction a with
  | nil => intro b bl; rfl
  | cons c a ih =>
    intro b bl
    by_cases hc : c = '\x1b'
    · simp [escState, hc, ih]
    · cases bl with
      | false => simp [escState, hc, ih]
      | true =>
        by_cases hl : isAsciiLetter c
        · simp [escState, hc, hl, ih]
        · simp [escState, hc, hl, ih]

theorem stripAux_append (a : List Char) :
    ∀ (b : List Char) (bl : Bool),
      stripAux bl (a ++ b) = stripAux bl a ++ stripAux (escState bl a) b := by
  induction a with
  | nil => intro b bl; rfl
  | cons c a ih =>
    intro b bl
    by_cases hc : c = '\x1b'
    · simp [stripAux, escState, hc, ih]
    · cases bl with
      | false => simp [stripAux, escState, hc, ih]
      | true =>
        by_cases hl : isAsciiLetter c
        · simp [stripAux, escState, hc, hl, ih]
        · simp [stripAux, escState, hc, hl, ih]

theorem stripAux_replicate_space (n : Nat) :
    stripAux false (List.replicate n ' ') = List.replicate n ' ' := by
  induction n with
  | zero => rfl
  | succ n ih =>
    have hsp : (' ' : Char) ≠ '\x1b' := by decide
    simp [List.replicate, stripAux, hsp, ih]

theorem stripAux_true_replicate_space (n : Nat) :
    stripAux true (List.replicate n ' ') = [] := by
  induction n with
  | zero => rfl
  | succ n ih =>
    have hsp : (' ' : Char) ≠ '\x1b' := by decide
    have hl : isAsciiLetter ' ' = false := by decide
    simp [List.replicate, stripAux, hsp, hl, ih]

theorem widthChars_replicate_space (n : Nat) :
    widthChars (List.replicate n ' ') = n := by
  induction n with
  | zero => rfl
  | succ n ih =>
    have h1 : runeWidth ' ' = 1 := by decide
    simp [List.replicate, widthChars, h1, ih]
    omega

theorem stripAux_no_escape_introducer (l : List Char) :
    ∀ bl : Bool, '\x1b' ∉ stripAux bl l := by
  induction l with
  | nil => intro bl; simp [stripAux]
  | cons c l ih =>
    intro bl
    by_cases hc : c = '\x1b'
    · simp [stripAux, hc]; exact ih true
    · cases bl with
      | false =>
        simp [stripAux, hc]
        exact ⟨fun he => hc he.symm, ih false⟩
      | true =>
        by_cases hl : isAsciiLetter c
        · simp [stripAux, hc, hl]; exact ih false
        · simp [stripAux, hc, hl]; exact ih true

theorem stripAux_of_no_introducer (l : List Char) :
    (∀ c ∈ l, c ≠ '\x1b') → stripAux false l = l := by
  induction l with
  | nil => intro _; rfl
  | cons c l ih =>
    intro h
    have hc : c ≠ '\x1b' := h c (List.mem_cons_self c l)
    simp [stripAux, hc]
    exact ih (fun d hd => h d (List.mem_cons_of_mem c hd))

theorem truncAux_final_le (l : List Char) :
    ∀ (b : Bool) (pos w : Nat), pos ≤ w → (truncAux b pos w l).2 ≤ w := by
  induction l with
  | nil => intro b pos w h; simpa [truncAux] using h
  | cons c l ih =>
    intro b pos w h
    by_cases hc : c = '\x1b'
    · simpa [truncAux, hc] using ih true pos w h
    · cases b with
      | true => simpa [truncAux, hc] using ih _ pos w h
      | false =>
        by_cases hw : pos + runeWidth c > w
        · simpa [truncAux, hc, hw] using h
        · simpa [truncAux, hc, hw] using ih false (pos + runeWidth c) w (by omega)

theorem truncAux_strip_width (l : List Char) :
    ∀ (b : Bool) (pos w : Nat), pos ≤ w →
      widthChars (stripAux b (truncAux b pos w l).1) + pos = (truncAux b pos w l).2 := by
  induction l with
  | nil => intro b pos w h; simp [truncAux, stripAux, widthChars]
  | cons c l ih =>
    intro b pos w h
    by_cases hc : c = '\x1b'
    · simpa [truncAux, stripAux, hc] using ih true pos w h
    · cases b with
      | true =>
        by_cases hl : isAsciiLetter c
        · simpa [truncAux, stripAux, hc, hl] using ih false pos w h
        · simpa [truncAux, stripAux, hc, hl] using ih true pos w h
      | false =>
        by_cases hw : pos + runeWidth c > w
        · simp [truncAux, hc, hw, stripAux, widthChars]
        · have hunf : truncAux false pos w (c :: l) =
              (c :: (truncAux false (pos + runeWidth c) w l).1,
               (truncAux false (pos + runeWidth c) w l).2) := by
            simp [truncAux, hc, hw]
          have hih := ih false (pos + runeWidth c) w (by omega)
          rw [hunf]
          simp only [stripAux, if_neg hc, if_neg (by simp : ¬(false = true)),
            widthChars]
          omega

theorem truncAux_all_or_terminated (l : List Char) :
    ∀ (b : Bool) (pos w : Nat),
      (truncAux b pos w l).1 = l ∨ escState b (truncAux b pos w l).1 = false := by
  induction l with
  | nil => intro b pos w; left; simp [truncAux]
  | cons c l ih =>
    intro b pos w
    by_cases hc : c = '\x1b'
    · rcases ih true pos w with h | h
      · left; simp [truncAux, hc, h]
      · right; simpa [truncAux, escState, hc] using h
    · cases b with
      | true =>
        by_cases hl : isAsciiLetter c
        · rcases ih false pos w with h | h
          · left; simp [truncAux, hc, hl, h]
          · right; simpa [truncAux, escState, hc, hl] using h
        · rcases ih true pos w with h | h
          · left; simp [truncAux, hc, hl, h]
          · right; simpa [truncAux, escState, hc, hl] using h
      | false =>
        by_cases hw : pos + runeWidth c > w
        · right; simp [truncAux, hc, hw, escState]
        · rcases ih false (pos + runeWidth c) w with h | h
          · left; simp [truncAux, hc, hw, h]
          · right; simpa [truncAux, escState, hc, hw] using h

/-! ### Claims C1 and C9: the text-measurement invariants -/

/-- Claim C1, counterexample: for the string consisting of a lone escape
    introducer (an escape sequence that never reaches a terminating letter)
    and width 1, `padToWidth` appends a space but the unterminated escape
    swallows it, so the result's visual width is 0, not 1.  The claim's
    invariant `visualWidth (padToWidth s w) = w` therefore fails for strings
    ending inside an unterminated escape sequence. -/
theorem padToWidth_dangling_escape_cex :
    visualWidth (padToWidth "\x1b" 1) ≠ 1 := by decide

/-- Claim C1 (amended): for every width `w > 0` and every string that does
    not end inside an unterminated escape sequence (the strip state machine
    finishes outside an escape), the padded string has visual width exactly
    `w` - whether `padToWidth` leaves the string alone, appends spaces, or
    truncates it via `truncateToWidth`. -/
theorem padToWidth_visual_width (s : String) (w : Nat) (_hw : 0 < w)
    (hterm : escState false s.data = false) :
    visualWidth (padToWidth s w) = w := by
  unfold padToWidth
  by_cases h1 : visualWidth s = w
  · simp [h1]
  · by_cases h2 : visualWidth s > w
    · simp only [h1, if_false, h2, if_true]
      unfold truncateToWidth
      have hle := truncAux_final_le s.data false 0 w (Nat.zero_le w)
      have hwidth := truncAux_strip_width s.data false 0 w (Nat.zero_le w)
      have hterm2 : escState false (truncAux false 0 w s.data).1 = false := by
        rcases truncAux_all_or_terminated s.data false 0 w with h | h
        · exfalso
          rw [h] at hwidth
          have : visualWidth s = (truncAux false 0 w s.data).2 := by
            simpa [visualWidth] using hwidth
          omega
        · exact h
      show widthChars (stripAux false ((truncAux false 0 w s.data).1 ++
        List.replicate (w - (truncAux false 0 w s.data).2) ' ')) = w
      rw [stripAux_append, widthChars_append, hterm2,
        stripAux_replicate_space, widthChars_replicate_space]
      omega
    · simp only [h1, if_false, h2, if_false]
      show widthChars (stripAux false (s.data ++
        List.replicate (w - visualWidth s) ' ')) = w
      rw [stripAux_append, widthChars_append, hterm,
        stripAux_replicate_space, widthChars_replicate_space]
      have : visualWidth s ≤ w := by omega
      show visualWidth s + (w - visualWidth s) = w
      omega

/-- Witness for C1's amended theorem at a concrete input: `"ab"` padded to
    width 5. -/
theorem padToWidth_visual_width_witness :
    escState false "ab".data = false ∧ visualWidth (padToWidth "ab" 5) = 5 :=
  ⟨by decide, padToWidth_visual_width "ab" 5 (by decide) (by decide)⟩

/-- Claim C9: `stripANSI` is idempotent - its output contains no escape
    introducer, and on introducer-free strings it is the identity. -/
theorem stripANSI_idempotent (s : String) :
    stripANSI (stripANSI s) = stripANSI s := by
  show String.mk (stripAux false (stripAux false s.data)) =
    String.mk (stripAux false s.data)
  apply congrArg String.mk
  apply stripAux_of_no_introducer
  intro c hc hceq
  exact stripAux_no_escape_introducer s.data false (hceq ▸ hc)

/-! ### Lemmas about calculateColumnWidths -/

theorem preWidths_length (cols : List Column) :
    (preWidths cols).length = cols.length := by
  induction cols with
  | nil => rfl
  | cons c cs ih => simp [preWidths, ih]

theorem preWidths_getElem? (cols : List Column) :
    ∀ i : Nat, (preWidths cols)[i]? =
      cols[i]?.map (fun c => if c.enabled && !c.flexible then c.width else 0) := by
  induction cols with
  | nil => intro i; cases i <;> rfl
  | cons c cs ih => intro i; cases i with
    | zero =>
      simp only [preWidths, List.getElem?_cons_zero, Option.map_some']
    | succ i =>
      simp only [preWidths, List.getElem?_cons_succ]
      exact ih i

theorem set_getElem?_self (l : List Int) :
    ∀ (i : Nat) (v : Int), i < l.length → (l.set i v)[i]? = some v := by
  induction l with
  | nil => intro i v h; simp at h
  | cons x xs ih => intro i v h; cases i with
    | zero => simp
    | succ i =>
      simp only [List.set_cons_succ, List.getElem?_cons_succ]
      exact ih i v (by simpa using h)

theorem set_getElem?_ne (l : List Int) :
    ∀ (i j : Nat) (v : Int), i ≠ j → (l.set j v)[i]? = l[i]? := by
  induction l with
  | nil => intro i j v _; simp
  | cons x xs ih =>
    intro i j v hne
    cases j with
    | zero => cases i with
      | zero => exact absurd rfl hne
      | succ i => simp
    | succ j => cases i with
      | zero => simp
      | succ i =>
        simp only [List.set_cons_succ, List.getElem?_cons_succ]
        exact ih i j v (fun h => hne (by omega))

theorem lastFlexIdx_spec (cols : List Column) :
    ∀ j : Nat, lastFlexIdx cols = some j →
      ∃ c, cols[j]? = some c ∧ c.enabled = true ∧ c.flexible = true := by
  induction cols with
  | nil => intro j h; simp [lastFlexIdx] at h
  | cons c cs ih =>
    intro j h
    unfold lastFlexIdx at h
    cases hcs : lastFlexIdx cs with
    | some j' =>
      rw [hcs] at h
      obtain ⟨c', hg, he, hf⟩ := ih j' hcs
      cases h
      exact ⟨c', by simpa using hg, he, hf⟩
    | none =>
      rw [hcs] at h
      by_cases hc : c.enabled && c.flexible
      · rw [if_pos hc] at h
        cases h
        exact ⟨c, by simp, by simpa using (Bool.and_elim_left hc),
          by simpa using (Bool.and_elim_right hc)⟩
      · rw [if_neg hc] at h
        cases h

theorem lastFlexIdx_lt (cols : List Column) :
    ∀ j : Nat, lastFlexIdx cols = some j → j < cols.length := by
  intro j h
  obtain ⟨c, hg, -, -⟩ := lastFlexIdx_spec cols j h
  by_contra hge
  rw [List.getElem?_eq_none (by omega)] at hg
  cases hg

theorem enabledWidthSum_preWidths (cols : List Column) :
    enabledWidthSum cols (preWidths cols) = usedWidth cols := by
  induction cols with
  | nil => rfl
  | cons c cs ih =>
    show (if c.enabled then (if c.enabled && !c.flexible then c.width else 0) else 0) +
      enabledWidthSum cs (preWidths cs) =
      (if c.enabled && !c.flexible then c.width else 0) + usedWidth cs
    rw [ih]
    cases he : c.enabled <;> simp [he]

theorem enabledWidthSum_set (cols : List Column) :
    ∀ (ws : List Int) (j : Nat) (v : Int) (c : Column),
      cols[j]? = some c → c.enabled = true → ws[j]? = some 0 →
      enabledWidthSum cols (ws.set j v) = enabledWidthSum cols ws + v := by
  induction cols with
  | nil => intro ws j v c hg _ _; simp at hg
  | cons c0 cs ih =>
    intro ws j v c hg he hw
    cases ws with
    | nil => simp at hw
    | cons w0 ws' =>
      cases j with
      | zero =>
        obtain rfl : c0 = c := by simpa using hg
        obtain rfl : w0 = 0 := by simpa using hw
        show (if c0.enabled then v else 0) + enabledWidthSum cs ws' =
          (if c0.enabled then (0 : Int) else 0) + enabledWidthSum cs ws' + v
        simp [he]
        omega
      | succ j =>
        show (if c0.enabled then w0 else 0) + enabledWidthSum cs (ws'.set j v) =
          (if c0.enabled then w0 else 0) + enabledWidthSum cs ws' + v
        rw [ih ws' j v c (by simpa using hg) he (by simpa using hw)]
        omega

/-! ### Claims C2 and C10: width allocation -/

/-- Claim C2, counterexample: a configuration with a single enabled fixed
    column of declared width 5 in a width-20 compositor has no fixed-width
    overflow, yet the sum of resolved widths of enabled columns is 5, not
    the compositor width - without an enabled flexible column the claimed
    sum property fails. -/
theorem enabledWidthSum_no_flexible_cex :
    usedWidth soloFixedCols + 1 ≤ 20 ∧
    enabledWidthSum soloFixedCols (calculateColumnWidths 20 soloFixedCols) ≠ 20 := by
  constructor
  · decide
  · decide

/-- Claim C2 (amended): `calculateColumnWidths` resolves each disabled
    column to 0 regardless of declared width and each enabled fixed column
    to its declared width; the last enabled flexible column (the Go loop's
    `flexibleIdx` is overwritten, so the last one wins) receives
    `totalWidth - sum(enabled fixed widths)` floored at 1, while any other
    enabled flexible column resolves to 0; and for every configuration that
    has an enabled flexible column and no fixed-width overflow, the resolved
    widths of enabled columns sum to the compositor width. -/
theorem calculateColumnWidths_resolution (w : Int) (cols : List Column) :
    (∀ (i : Nat) (c : Column), cols[i]? = some c → c.enabled = false →
      (calculateColumnWidths w cols)[i]? = some 0) ∧
    (∀ (i : Nat) (c : Column), cols[i]? = some c → c.enabled = true →
      c.flexible = false →
      (calculateColumnWidths w cols)[i]? = some c.width) ∧
    (∀ j : Nat, lastFlexIdx cols = some j →
      (calculateColumnWidths w cols)[j]? =
        some (if w - usedWidth cols < 1 then 1 else w - usedWidth cols)) ∧
    (∀ (i : Nat) (c : Column), cols[i]? = some c → c.enabled = true →
      c.flexible = true → lastFlexIdx cols ≠ some i →
      (calculateColumnWidths w cols)[i]? = some 0) ∧
    (∀ j : Nat, lastFlexIdx cols = some j → 1 ≤ w - usedWidth cols →
      enabledWidthSum cols (calculateColumnWidths w cols) = w) := by
  cases hfl : lastFlexIdx cols with
  | none =>
    refine ⟨?_, ?_, ?_, ?_, ?_⟩
    · intro i c hic hen
      simp [calculateColumnWidths, hfl, preWidths_getElem?, hic, hen]
    · intro i c hic hen hfx
      simp [calculateColumnWidths, hfl, preWidths_getElem?, hic, hen, hfx]
    · intro j hj; simp at hj
    · intro i c hic _ hfx _
      simp [calculateColumnWidths, hfl, preWidths_getElem?, hic, hfx]
    · intro j hj; simp at hj
  | some j0 =>
    obtain ⟨c0, hg0, he0, hf0⟩ := lastFlexIdx_spec cols j0 hfl
    have hlt : j0 < cols.length := lastFlexIdx_lt cols j0 hfl
    have hcalc : calculateColumnWidths w cols =
        (preWidths cols).set j0
          (if w - usedWidth cols < 1 then 1 else w - usedWidth cols) := by
      simp [calculateColumnWidths, hfl]
    refine ⟨?_, ?_, ?_, ?_, ?_⟩
    · intro i c hic hen
      have hne : i ≠ j0 := by
        intro hij
        rw [hij, hg0] at hic
        injection hic with hc
        rw [hc] at he0
        rw [hen] at he0
        cases he0
      rw [hcalc, set_getElem?_ne _ _ _ _ hne]
      simp [preWidths_getElem?, hic, hen]
    · intro i c hic hen hfx
      have hne : i ≠ j0 := by
        intro hij
        rw [hij, hg0] at hic
        injection hic with hc
        rw [hc] at hf0
        rw [hfx] at hf0
        cases hf0
      rw [hcalc, set_getElem?_ne _ _ _ _ hne]
      simp [preWidths_getElem?, hic, hen, hfx]
    · intro j hj
      injection hj with hj
      subst hj
      rw [hcalc]
      exact set_getElem?_self _ _ _ (by rw [preWidths_length]; exact hlt)
    · intro i c hic _ hfx hnot
      have hne : i ≠ j0 := fun hij => hnot (by rw [hij])
      rw [hcalc, set_getElem?_ne _ _ _ _ hne]
      simp [preWidths_getElem?, hic, hfx]
    · intro j hj hov
      injection hj with hj
      subst hj
      have hpre0 : (preWidths cols)[j0]? = some 0 := by
        simp [preWidths_getElem?, hg0, hf0]
      rw [hcalc, enabledWidthSum_set cols (preWidths cols) j0 _ c0 hg0 he0 hpre0,
        enabledWidthSum_preWidths]
      rw [if_neg (by omega)]
      omega

/-- Witness for C2's amended theorem on a concrete configuration:
    a disabled column of declared width 7, an enabled fixed column of width
    5 and an enabled flexible column in a width-20 compositor. -/
theorem calculateColumnWidths_resolution_witness :
    (calculateColumnWidths 20 demoCols)[0]? = some 0 ∧
    (calculateColumnWidths 20 demoCols)[1]? = some 5 ∧
    (calculateColumnWidths 20 demoCols)[2]? =
      some (if 20 - usedWidth demoCols < 1 then 1
            else 20 - usedWidth demoCols) ∧
    enabledWidthSum demoCols (calculateColumnWidths 20 demoCols) = 20 :=
  have h := calculateColumnWidths_resolution 20 demoCols
  ⟨h.1 0 ⟨7, false, false, none⟩ (by simp [demoCols]) rfl,
   h.2.1 1 ⟨5, false, true, none⟩ (by simp [demoCols]) rfl rfl,
   h.2.2.1 2 rfl,
   h.2.2.2.2 2 rfl (by decide)⟩

/-- `flexLookup` finds nothing when no column is both enabled and
    flexible. -/
theorem flexLookup_none (cols : List Column) :
    ∀ ws : List Int, (∀ c ∈ cols, (c.enabled && c.flexible) = false) →
      flexLookup cols ws = none := by
  induction cols with
  | nil => intro ws _; cases ws <;> rfl
  | cons c cs ih =>
    intro ws h
    cases ws with
    | nil => rfl
    | cons wI ws' =>
      have hc := h c (List.mem_cons_self c cs)
      show (if c.enabled && c.flexible then some wI else flexLookup cs ws') = none
      rw [hc]
      simp only [if_false, Bool.false_eq_true]
      exact ih ws' (fun d hd => h d (List.mem_cons_of_mem c hd))

/-- Claim C10: when no enabled flexible column exists, `FlexibleColumnWidth`
    falls back to the full compositor width. -/
theorem FlexibleColumnWidth_no_flexible (w : Int) (cols : List Column)
    (h : ∀ c ∈ cols, (c.enabled && c.flexible) = false) :
    FlexibleColumnWidth w cols = w := by
  unfold FlexibleColumnWidth
  rw [flexLookup_none cols _ h]

/-- Witness for C10 on the single-fixed-column configuration in a width-20
    compositor. -/
theorem FlexibleColumnWidth_no_flexible_witness :
    FlexibleColumnWidth 20 soloFixedCols = 20 :=
  FlexibleColumnWidth_no_flexible 20 soloFixedCols (by decide)

/-! ### Lemmas about Render's row join -/

theorem str_data_append (a b : String) : (a ++ b).data = a.data ++ b.data := by
  cases a; cases b; rfl

theorem escState_replicate_space (n : Nat) :
    escState false (List.replicate n ' ') = false := by
  induction n with
  | zero => rfl
  | succ n ih =>
    have hsp : (' ' : Char) ≠ '\x1b' := by decide
    simp [List.replicate, escState, hsp, ih]

theorem visualWidth_append (a b : String) (h : escState false a.data = false) :
    visualWidth (a ++ b) = visualWidth a + visualWidth b := by
  show widthChars (stripAux false (a ++ b).data) = _
  rw [str_data_append, stripAux_append, widthChars_append, h]
  rfl

theorem escState_str_append (a b : String) (h : escState false a.data = false) :
    escState false (a ++ b).data = escState false b.data := by
  rw [str_data_append, escState_append, h]

theorem RowOk_blank (wI : Int) (h : 0 ≤ wI) :
    RowOk wI ⟨List.replicate wI.toNat ' '⟩ := by
  refine ⟨?_, ?_, ?_⟩
  · show ((widthChars (stripAux false (List.replicate wI.toNat ' ')) : Nat) : Int) = wI
    rw [stripAux_replicate_space, widthChars_replicate_space]
    exact Int.toNat_of_nonneg h
  · exact escState_replicate_space _
  · intro hmem
    exact absurd (List.eq_of_mem_replicate hmem) (by decide)

theorem getD_mem_of_lt {α : Type} (l : List α) :
    ∀ (r : Nat) (d : α), r < l.length → l.getD r d ∈ l := by
  induction l with
  | nil => intro r d h; simp at h
  | cons x xs ih =>
    intro r d h
    cases r with
    | zero => exact List.mem_cons_self x xs
    | succ r => exact List.mem_cons_of_mem x (ih r d (by simpa using h))

theorem fixRows_good (wI : Int) (hN : Nat) (rows : List String)
    (hw : 0 < wI) (h : ∀ row ∈ rows, RowOk wI row) :
    ∃ rows', fixRows wI hN rows = some rows' ∧ rows'.length = hN ∧
      ∀ row ∈ rows', RowOk wI row := by
  unfold fixRows
  by_cases h1 : rows.length < hN
  · rw [if_pos h1]
    have hrep : stringsRepeatSpace wI = some ⟨List.replicate wI.toNat ' '⟩ := by
      unfold stringsRepeatSpace; rw [if_neg (by omega)]
    rw [hrep]
    refine ⟨_, rfl, ?_, ?_⟩
    · simp only [List.length_append, List.length_replicate]; omega
    · intro row hm
      rcases List.mem_append.mp hm with hm | hm
      · exact h row hm
      · rw [List.eq_of_mem_replicate hm]; exact RowOk_blank wI (le_of_lt hw)
  · rw [if_neg h1]
    by_cases h2 : hN < rows.length
    · rw [if_pos h2]
      refine ⟨_, rfl, ?_, ?_⟩
      · rw [List.length_take]; omega
      · intro row hm; exact h row (List.take_subset hN rows hm)
    · rw [if_neg h2]
      exact ⟨rows, rfl, by omega, h⟩

theorem columnOutputs_good (h : Int) (st : Option RenderState) :
    ∀ (cs : List Column) (ws : List Int), GoodCols h st cs ws →
      ∃ outs, columnOutputs cs ws h st = some outs ∧ OutsGood h.toNat cs ws outs := by
  intro cs
  induction cs with
  | nil =>
    intro ws hg
    cases ws with
    | nil => exact ⟨[], rfl, trivial⟩
    | cons wI ws' => have hf : False := hg; exact hf.elim
  | cons c cs ih =>
    intro ws hg
    cases ws with
    | nil => have hf : False := hg; exact hf.elim
    | cons wI ws' =>
      obtain ⟨hhead, htail⟩ := hg
      obtain ⟨outs', ho', hog'⟩ := ih ws' htail
      cases hr : c.renderer with
      | none =>
        refine ⟨List.replicate h.toNat "" :: outs', ?_, ?_⟩
        · simp [columnOutputs, columnOutput, hr, ho']
        · refine ⟨fun hcond => ?_, hog'⟩
          obtain ⟨-, f, hf, -⟩ := hhead hcond.1 hcond.2
          rw [hr] at hf
          cases hf
      | some f =>
        by_cases hen : c.enabled = true
        · by_cases hnz : wI = 0
          · refine ⟨List.replicate h.toNat "" :: outs',
              ?_, ⟨fun hcond => absurd hnz hcond.2, hog'⟩⟩
            simp [columnOutputs, columnOutput, hr, hen, hnz, ho']
          · obtain ⟨hpos, f', hf', hrows⟩ := hhead hen hnz
            have hff : f = f' := by
              rw [hr] at hf'
              exact Option.some.inj hf'
            subst hff
            obtain ⟨rows', hfix, hlen, hok⟩ :=
              fixRows_good wI h.toNat (f wI h st) hpos hrows
            refine ⟨rows' :: outs', ?_, ⟨fun _ => ⟨hlen, hok⟩, hog'⟩⟩
            simp [columnOutputs, columnOutput, hr, hen, hnz, hfix, ho']
        · refine ⟨List.replicate h.toNat "" :: outs',
            ?_, ⟨fun hcond => absurd hcond.1 hen, hog'⟩⟩
          simp [columnOutputs, columnOutput, hr, hen, ho']

theorem rowString_ok (hN : Nat) :
    ∀ (cs : List Column) (ws : List Int) (outs : List (List String)) (r : Nat),
      OutsGood hN cs ws outs → r < hN →
      (visualWidth (rowString cs ws outs r) : Int) = usedWidthSum cs ws ∧
      escState false (rowString cs ws outs r).data = false ∧
      '\n' ∉ (rowString cs ws outs r).data := by
  intro cs
  induction cs with
  | nil =>
    intro ws outs r hog _
    cases ws with
    | cons _ _ =>
      cases outs with
      | nil => have hf : False := hog; exact hf.elim
      | cons _ _ => have hf : False := hog; exact hf.elim
    | nil =>
      cases outs with
      | cons _ _ => have hf : False := hog; exact hf.elim
      | nil => exact ⟨rfl, rfl, by simp [rowString]⟩
  | cons c cs ih =>
    intro ws outs r hog hr
    cases ws with
    | nil => have hf : False := hog; exact hf.elim
    | cons wI ws' =>
      cases outs with
      | nil => have hf : False := hog; exact hf.elim
      | cons o os =>
        obtain ⟨hhead, htail⟩ := hog
        obtain ⟨ihw, ihe, ihn⟩ := ih ws' os r htail hr
        by_cases huse : (c.enabled && wI != 0) = true
        · have hcond : c.enabled = true ∧ wI ≠ 0 := by
            constructor
            · exact Bool.and_elim_left huse
            · have := Bool.and_elim_right huse
              simpa using this
          obtain ⟨hlen, hok⟩ := hhead hcond
          have hmem : o.getD r "" ∈ o := getD_mem_of_lt o r "" (by omega)
          obtain ⟨hrw, hre, hrn⟩ := hok _ hmem
          have hrs : rowString (c :: cs) (wI :: ws') (o :: os) r =
              o.getD r "" ++ rowString cs ws' os r := by
            simp [rowString, huse]
          refine ⟨?_, ?_, ?_⟩
          · rw [hrs, visualWidth_append _ _ hre]
            push_cast
            rw [hrw, ihw]
            show wI + usedWidthSum cs ws' =
              (if c.enabled && wI != 0 then wI else 0) + usedWidthSum cs ws'
            rw [if_pos huse]
          · rw [hrs, escState_str_append _ _ hre, ihe]
          · rw [hrs, str_data_append]
            intro hmm
            rcases List.mem_append.mp hmm with hmm | hmm
            · exact hrn hmm
            · exact ihn hmm
        · have hrs : rowString (c :: cs) (wI :: ws') (o :: os) r =
              "" ++ rowString cs ws' os r := by
            simp only [rowString, huse]
            rw [if_neg (by simpa using huse)]
          have hdata : ("" ++ rowString cs ws' os r).data =
              (rowString cs ws' os r).data := by
            rw [str_data_append]
            rfl
          refine ⟨?_, ?_, ?_⟩
          · rw [hrs]
            show (widthChars (stripAux false (("" ++ rowString cs ws' os r)).data) : Int) = _
            rw [hdata]
            show (visualWidth (rowString cs ws' os r) : Int) = _
            rw [ihw]
            show usedWidthSum cs ws' =
              (if c.enabled && wI != 0 then wI else 0) + usedWidthSum cs ws'
            rw [if_neg (by simpa using huse)]
            omega
          · rw [hrs]
            show escState false (("" ++ rowString cs ws' os r)).data = false
            rw [hdata, ihe]
          · rw [hrs]
            show '\n' ∉ (("" ++ rowString cs ws' os r)).data
            rw [hdata]
            exact ihn

/-! ### Claims C3 and C4: the composed frame -/

/-- Claim C3, counterexample: a single enabled fixed column of resolved
    width 5 in a width-20 compositor, whose renderer returns rows of exactly
    its allocated visual width (5), still yields a line of visual width 5,
    not the compositor width 20: without the width-sum side condition the
    claimed per-line width fails. -/
theorem compositorRender_width_cex :
    (visualWidth "XXXXX" : Int) = 5 ∧
    compositorRender 20 1 soloFixedCols none = some "XXXXX" ∧
    visualWidth "XXXXX" ≠ 20 :=
  ⟨by decide, by decide, by decide⟩

/-- Claim C3 (amended): if the compositor has at least one column and
    positive height, every enabled nonzero-width column has positive
    resolved width and a renderer whose rows all have exactly the allocated
    visual width, end outside any escape sequence and contain no newline,
    and the resolved widths of the joined columns sum to the compositor
    width, then `Render` produces exactly `height` lines joined by newline,
    each line the separator-free concatenation of the enabled nonzero-width
    columns' (repaired) rows in column order, each of visual width exactly
    the compositor width with escape sequences uncounted, and free of
    newlines. -/
theorem compositorRender_frame (w h : Int) (cols : List Column)
    (st : Option RenderState)
    (hcols : cols.isEmpty = false) (hh : 0 < h)
    (hgood : GoodCols h st cols (calculateColumnWidths w cols))
    (hsum : usedWidthSum cols (calculateColumnWidths w cols) = w) :
    ∃ (L : List String) (outs : List (List String)),
      columnOutputs cols (calculateColumnWidths w cols) h st = some outs ∧
      compositorRender w h cols st = some (joinLines L) ∧
      L = (List.range h.toNat).map
        (rowString cols (calculateColumnWidths w cols) outs) ∧
      L.length = h.toNat ∧
      ∀ line ∈ L, (visualWidth line : Int) = w ∧ '\n' ∉ line.data := by
  obtain ⟨outs, ho, hog⟩ := columnOutputs_good h st cols _ hgood
  refine ⟨_, outs, ho, ?_, rfl, by simp, ?_⟩
  · unfold compositorRender
    rw [if_neg ?_]
    · simp only [ho]
    · rintro (hc | hl)
      · rw [hcols] at hc; cases hc
      · omega
  · intro line hline
    obtain ⟨r, hrr, hrl⟩ := List.mem_map.mp hline
    have hrlt : r < h.toNat := List.mem_range.mp hrr
    obtain ⟨h1, h2, h3⟩ := rowString_ok h.toNat cols _ outs r hog hrlt
    constructor
    · rw [← hrl, h1, hsum]
    · rw [← hrl]; exact h3

/-- Witness for C3's amended theorem: a fixed width-1 column and a flexible
    column with well-behaved renderers in a 3-wide, 2-tall compositor; the
    frame is the expected `"ABB\nABB"`. -/
theorem compositorRender_frame_witness :
    compositorRender 3 2 goodCols none = some "ABB\nABB" ∧
    (∃ (L : List String) (outs : List (List String)),
      columnOutputs goodCols (calculateColumnWidths 3 goodCols) 2 none = some outs ∧
      compositorRender 3 2 goodCols none = some (joinLines L) ∧
      L = (List.range (2 : Int).toNat).map
        (rowString goodCols (calculateColumnWidths 3 goodCols) outs) ∧
      L.length = (2 : Int).toNat ∧
      ∀ line ∈ L, (visualWidth line : Int) = 3 ∧ '\n' ∉ line.data) :=
  ⟨by decide,
   compositorRender_frame 3 2 goodCols none rfl (by decide)
     ⟨fun _ _ => ⟨by decide, fillRenderer 'A', rfl, by decide⟩,
      fun _ _ => ⟨by decide, fillRenderer 'B', rfl, by decide⟩,
      trivial⟩
     (by decide)⟩

/-- `fixRows` always succeeds for a nonnegative resolved width. -/
theorem fixRows_isSome (wI : Int) (hN : Nat) (rows : List String)
    (h : 0 ≤ wI) : ∃ rows', fixRows wI hN rows = some rows' := by
  unfold fixRows
  by_cases h1 : rows.length < hN
  · rw [if_pos h1]
    have hrep : stringsRepeatSpace wI = some ⟨List.replicate wI.toNat ' '⟩ := by
      unfold stringsRepeatSpace; rw [if_neg (by omega)]
    rw [hrep]
    exact ⟨_, rfl⟩
  · rw [if_neg h1]
    by_cases h2 : hN < rows.length
    · rw [if_pos h2]; exact ⟨_, rfl⟩
    · rw [if_neg h2]; exact ⟨_, rfl⟩

/-- Under nonnegative used widths every column output is produced. -/
theorem columnOutputs_total (h : Int) (st : Option RenderState) :
    ∀ (cs : List Column) (ws : List Int), UsedNonneg cs ws →
      ∃ outs, columnOutputs cs ws h st = some outs := by
  intro cs
  induction cs with
  | nil =>
    intro ws hu
    cases ws with
    | nil => exact ⟨[], rfl⟩
    | cons _ _ => have hf : False := hu; exact hf.elim
  | cons c cs ih =>
    intro ws hu
    cases ws with
    | nil => have hf : False := hu; exact hf.elim
    | cons wI ws' =>
      obtain ⟨hhead, htail⟩ := hu
      obtain ⟨outs', ho'⟩ := ih ws' htail
      cases hr : c.renderer with
      | none =>
        refine ⟨List.replicate h.toNat "" :: outs', ?_⟩
        simp [columnOutputs, columnOutput, hr, ho']
      | some f =>
        by_cases hen : c.enabled = true
        · by_cases hnz : wI = 0
          · refine ⟨List.replicate h.toNat "" :: outs', ?_⟩
            simp [columnOutputs, columnOutput, hr, hen, hnz, ho']
          · have hw : 0 ≤ wI := hhead hen hnz (by rw [hr]; exact fun hx => Option.noConfusion hx)
            obtain ⟨rows', hfix⟩ := fixRows_isSome wI h.toNat (f wI h st) hw
            refine ⟨rows' :: outs', ?_⟩
            simp [columnOutputs, columnOutput, hr, hen, hnz, hfix, ho']
        · refine ⟨List.replicate h.toNat "" :: outs', ?_⟩
          simp [columnOutputs, columnOutput, hr, hen, ho']

/-- Claim C4: `Render` repairs wrong row counts instead of failing - a
    renderer result with fewer than `height` rows is padded with blank rows
    of the column's resolved width, one with more rows is truncated to
    exactly `height`, every repaired output has exactly `height` rows, and
    (for nonnegative used widths, widths being cell counts) the whole frame
    is always producible. -/
theorem compositorRender_repair :
    (∀ (wI : Int) (hN : Nat) (rows : List String), 0 ≤ wI → rows.length < hN →
      fixRows wI hN rows = some (rows ++ List.replicate (hN - rows.length)
        ⟨List.replicate wI.toNat ' '⟩)) ∧
    (∀ (wI : Int) (hN : Nat) (rows : List String), hN < rows.length →
      fixRows wI hN rows = some (rows.take hN)) ∧
    (∀ (wI : Int) (hN : Nat) (rows rows' : List String),
      fixRows wI hN rows = some rows' → rows'.length = hN) ∧
    (∀ (w h : Int) (cols : List Column) (st : Option RenderState),
      UsedNonneg cols (calculateColumnWidths w cols) →
      ∃ out, compositorRender w h cols st = some out) := by
  refine ⟨?_, ?_, ?_, ?_⟩
  · intro wI hN rows hw hlen
    unfold fixRows
    rw [if_pos hlen]
    have hrep : stringsRepeatSpace wI = some ⟨List.replicate wI.toNat ' '⟩ := by
      unfold stringsRepeatSpace; rw [if_neg (by omega)]
    rw [hrep]
  · intro wI hN rows hlen
    unfold fixRows
    rw [if_neg (by omega), if_pos hlen]
  · intro wI hN rows rows' hfix
    unfold fixRows at hfix
    by_cases h1 : rows.length < hN
    · rw [if_pos h1] at hfix
      cases hrep : stringsRepeatSpace wI with
      | none => rw [hrep] at hfix; cases hfix
      | some blank =>
        rw [hrep] at hfix
        injection hfix with hfix
        rw [← hfix]
        simp only [List.length_append, List.length_replicate]
        omega
    · rw [if_neg h1] at hfix
      by_cases h2 : hN < rows.length
      · rw [if_pos h2] at hfix
        injection hfix with hfix
        rw [← hfix, List.length_take]
        omega
      · rw [if_neg h2] at hfix
        injection hfix with hfix
        rw [← hfix]
        omega
  · intro w h cols st hu
    unfold compositorRender
    by_cases hc : cols.isEmpty = true ∨ h ≤ 0
    · rw [if_pos hc]; exact ⟨"", rfl⟩
    · rw [if_neg hc]
      obtain ⟨outs, ho⟩ := columnOutputs_total h st cols _ hu
      simp only [ho]
      exact ⟨_, rfl⟩

/-- Witness for C4 at concrete inputs: a two-row result padded to three
    rows with width-2 blanks, a two-row result truncated to one row, and a
    producible frame for the single-fixed-column configuration. -/
theorem compositorRender_repair_witness :
    fixRows 2 3 ["ab"] = some ["ab", "  ", "  "] ∧
    fixRows 2 1 ["ab", "cd"] = some ["ab"] ∧
    (∃ out, compositorRender 4 2 soloFixedCols none = some out) :=
  ⟨(compositorRender_repair.1 2 3 ["ab"] (by decide) (by decide)).trans (by decide),
   (compositorRender_repair.2.1 2 1 ["ab", "cd"] (by decide)).trans (by decide),
   compositorRender_repair.2.2.2 4 2 soloFixedCols none
     ⟨fun _ _ _ => by decide, trivial⟩⟩

/-! ### Claim C5: minimap click mapping -/

theorem ratFloor_eq_intFloor (q : ℚ) : q.floor = ⌊q⌋ := rfl

/-- Go's `int(f)` conversion agrees with the integer on exact integer
    values. -/
theorem goTrunc_intCast (n : Int) : goTrunc ((n : ℚ)) = n := by
  unfold goTrunc
  by_cases h : ((n : ℚ)) < 0
  · rw [if_pos h, ratFloor_eq_intFloor, ← Int.cast_neg, Int.floor_intCast]
    omega
  · rw [if_neg h, ratFloor_eq_intFloor, Int.floor_intCast]

theorem GetMetrics_linesPerRow (height : Int) (state : RenderState) :
    (GetMetrics height state).linesPerRow =
      if ((GetMetrics height state).totalLines : ℚ) / (height : ℚ) < 1 then 1
      else ((GetMetrics height state).totalLines : ℚ) / (height : ℚ) := rfl

/-- Claim C5, counterexample: a no-wrap state with 4 buffer lines and a
    height-2 minimap satisfies the claim's premises (extent 4 ≥ 1, height
    2 ≥ 1), yet the bottom row maps to line 2, not `extent - 1 = 3`:
    `linesPerRow = 2`, so `RowToLine(1) = trunc(1·2) = 2`, which the clamp
    leaves untouched. -/
theorem RowToLine_bottom_row_cex :
    1 ≤ (GetMetrics 2 stateExtent4).totalLines ∧
    RowToLine (2 - 1) (GetMetrics 2 stateExtent4) ≠
      (GetMetrics 2 stateExtent4).totalLines - 1 := by
  have hm : GetMetrics 2 stateExtent4 = ⟨(2 : ℚ), 4, 2⟩ := by
    unfold GetMetrics stateExtent4 mkState
    norm_num
  rw [hm]
  refine ⟨by norm_num, ?_⟩
  unfold RowToLine
  have hq : (((2 : Int) - 1 : Int) : ℚ) * (2 : ℚ) = ((2 : Int) : ℚ) := by norm_num
  simp only [hq, goTrunc_intCast]
  norm_num

/-- Claim C5 (amended): over metrics from `GetMetrics` with extent ≥ 1 and
    height ≥ 1, `RowToLine` always clamps into `[0, extent - 1]` and maps
    row 0 to line 0; the bottom-boundary identity
    `RowToLine(height - 1) = extent - 1` holds whenever the extent does not
    exceed the minimap height (when it does, `linesPerRow > 1` and the
    bottom row maps below `extent - 1`, as the counterexample shows). -/
theorem RowToLine_clamp (height : Int) (state : RenderState)
    (hh : 1 ≤ height) (hext : 1 ≤ (GetMetrics height state).totalLines) :
    (∀ row : Int, 0 ≤ RowToLine row (GetMetrics height state) ∧
      RowToLine row (GetMetrics height state) ≤
        (GetMetrics height state).totalLines - 1) ∧
    RowToLine 0 (GetMetrics height state) = 0 ∧
    ((GetMetrics height state).totalLines ≤ height →
      RowToLine (height - 1) (GetMetrics height state) =
        (GetMetrics height state).totalLines - 1) := by
  refine ⟨?_, ?_, ?_⟩
  · intro row
    unfold RowToLine
    generalize goTrunc ((row : ℚ) * (GetMetrics height state).linesPerRow) = line
    by_cases h1 : line < 0
    · rw [if_pos h1]
      omega
    · rw [if_neg h1]
      by_cases h2 : (GetMetrics height state).totalLines ≤ line
      · rw [if_pos h2]
        omega
      · rw [if_neg h2]
        omega
  · unfold RowToLine
    have h0 : (((0 : Int)) : ℚ) * (GetMetrics height state).linesPerRow =
        ((0 : Int) : ℚ) := by push_cast; ring
    rw [h0, goTrunc_intCast]
    rw [if_neg (by omega), if_neg (by omega)]
  · intro hle
    unfold RowToLine
    have hlpr : (GetMetrics height state).linesPerRow = 1 := by
      rw [GetMetrics_linesPerRow]
      by_cases hq : ((GetMetrics height state).totalLines : ℚ) / (height : ℚ) < 1
      · rw [if_pos hq]
      · rw [if_neg hq]
        have hpos : (0 : ℚ) < (height : ℚ) := by
          exact_mod_cast (by omega : (0 : Int) < height)
        have hle' : ((GetMetrics height state).totalLines : ℚ) ≤ (height : ℚ) := by
          exact_mod_cast hle
        exact le_antisymm ((div_le_one hpos).mpr hle') (not_lt.mp hq)
    rw [hlpr, mul_one, goTrunc_intCast]
    by_cases h2 : (GetMetrics height state).totalLines ≤ height - 1
    · rw [if_neg (by omega), if_pos h2]
    · rw [if_neg (by omega), if_neg h2]
      omega

/-- Witness for C5's amended theorem: 2 buffer lines under a height-3
    minimap - row 0 maps to line 0 and the bottom row maps to the last
    line. -/
theorem RowToLine_clamp_witness :
    RowToLine 0 (GetMetrics 3 stateExtent2) = 0 ∧
    RowToLine (3 - 1) (GetMetrics 3 stateExtent2) =
      (GetMetrics 3 stateExtent2).totalLines - 1 :=
  ⟨(RowToLine_clamp 3 stateExtent2 (by decide) (by decide)).2.1,
   (RowToLine_clamp 3 stateExtent2 (by decide) (by decide)).2.2 (by decide)⟩

/-! ### Claims C6 and C7: minimap scaling and totality -/

theorem foldl_max_init (lines : List String) :
    ∀ a : Nat, lines.foldl (fun m l => max m l.data.length) a =
      max a (lines.foldl (fun m l => max m l.data.length) 0) := by
  induction lines with
  | nil => intro a; simp
  | cons l ls ih =>
    intro a
    simp only [List.foldl_cons]
    rw [ih (max a l.data.length), ih (max 0 l.data.length)]
    omega

theorem maxLineLen_eq (lines : List String) :
    maxLineLen lines = max 80 (specLongestLineLen lines) := by
  unfold maxLineLen specLongestLineLen
  exact foldl_max_init lines 80

/-- Claim C6, counterexample: for a document whose longest line has 5 runes
    and braille body width 6, the code's scale is `80/6 = 40/3` (because
    `maxLineLen` starts from a default minimum of 80), while the spec's
    "rune length of the single longest line divided by the braille body
    width, minimum 1" gives 1. -/
theorem charsPerBraille_default_floor_cex :
    charsPerBraille (maxLineLen ["hello"]) 6 ≠ specCharsPerBraille ["hello"] 6 := by
  have h1 : maxLineLen ["hello"] = 80 := by decide
  have h2 : specLongestLineLen ["hello"] = 5 := by decide
  unfold charsPerBraille specCharsPerBraille
  rw [h1, h2]
  norm_num

/-- Claim C6 (amended): the minimap's horizontal scale is computed once per
    frame from the whole document - it equals
    `max(80, longest line rune length) / brailleBodyWidth`, floored at 1
    (the code's `maxLineLen` starts from a default minimum of 80, so the
    spec's "longest line" must be floored at 80) - and every minimap row `r`
    is rendered from the same document-wide `maxLineLen`, so one scale
    applies to the whole minimap. -/
theorem minimap_scale_from_whole_document (lines : List String) (bw : Nat)
    (styles : Styles) (width height : Int) (state : RenderState) (r : Nat)
    (hlines : state.lines = lines) (hr : r < height.toNat) :
    maxLineLen lines = max 80 (specLongestLineLen lines) ∧
    charsPerBraille (maxLineLen lines) bw =
      max (((max 80 (specLongestLineLen lines) : ℕ) : ℚ) / (bw : ℚ)) 1 ∧
    (minimapMain styles width height state)[r]? =
      some (minimapRowAt styles lines (minimapLinesPerRow height state)
        (minimapEffectiveTotal state) state.scrollY (state.scrollY + height)
        (if width - 2 < 1 then 1 else width - 2).toNat (maxLineLen lines) r) := by
  refine ⟨maxLineLen_eq lines, ?_, ?_⟩
  · unfold charsPerBraille
    rw [maxLineLen_eq]
    by_cases hq : ((max 80 (specLongestLineLen lines) : ℕ) : ℚ) / (bw : ℚ) < 1
    · rw [if_pos hq, max_eq_right (le_of_lt hq)]
    · rw [if_neg hq, max_eq_left (not_lt.mp hq)]
  · subst hlines
    simp [minimapMain, List.getElem?_map, List.getElem?_range, hr]

/-- Witness for C6's amended theorem: the one-line document `["a"]` with
    braille body width 1 under a width-3, height-1 minimap. -/
theorem minimap_scale_witness :
    maxLineLen ["a"] = max 80 (specLongestLineLen ["a"]) ∧
    charsPerBraille (maxLineLen ["a"]) 1 =
      max (((max 80 (specLongestLineLen ["a"]) : ℕ) : ℚ) / ((1 : ℕ) : ℚ)) 1 ∧
    (minimapMain demoStyles 3 1 tinyState)[0]? =
      some (minimapRowAt demoStyles ["a"] (minimapLinesPerRow 1 tinyState)
        (minimapEffectiveTotal tinyState) tinyState.scrollY
        (tinyState.scrollY + 1)
        (if (3 : Int) - 2 < 1 then 1 else (3 : Int) - 2).toNat
        (maxLineLen ["a"]) 0) :=
  minimap_scale_from_whole_document ["a"] 1 demoStyles 3 1 tinyState 0 rfl
    (by decide)

/-- Claim C7: the minimap renderer is claimed never to fail, yet the Go
    code panics on negative degenerate input: with width -1 and height 1
    the blank-row fill calls `strings.Repeat(" ", -1)`, and with height -1
    the row slice is built by `make([]string, -1)`; both panic at run time
    (modelled as `none`) instead of returning blank rows. -/
theorem minimapRender_negative_input_panics :
    minimapRender true demoStyles (-1) 1 (some tinyState) = none ∧
    minimapRender false demoStyles 5 (-1) none = none :=
  ⟨by decide, by decide⟩

/-! ### Claim C8: gutter rows in no-wrap mode -/

/-- Claim C8: in no-wrap mode, gutter row `r` stands for document line
    `scrollY + r`: when that index is within the document the row is the
    1-based line number right-justified in the `numWidth` numeral field
    followed by the reset code and one separator space, colored with the
    active color exactly when the line is the cursor line and the normal
    gutter color otherwise; when the index is past the end of the document
    the row is `width` blank cells. -/
theorem renderNoWrap_rows (styles : Styles) (width numWidth height : Nat)
    (state : RenderState) (r : Nat) (hr : r < height) :
    (0 ≤ state.scrollY + (r : Int) →
      state.scrollY + (r : Int) < (state.lines.length : Int) →
      (renderNoWrap styles width numWidth height state)[r]? =
        some ((if state.scrollY + (r : Int) = state.cursorLine
            then ColorToANSIFg styles.theme.ui.lineNumberActive
            else ColorToANSIFg styles.theme.ui.lineNumber)
          ++ padLeftStr (itoaLocal (state.scrollY + (r : Int) + 1)) numWidth
          ++ resetCode ++ " ")) ∧
    ((state.lines.length : Int) ≤ state.scrollY + (r : Int) →
      (renderNoWrap styles width numWidth height state)[r]? =
        some ⟨List.replicate width ' '⟩) := by
  have hrow : (renderNoWrap styles width numWidth height state)[r]? =
      some (if state.scrollY + (r : Int) < (state.lines.length : Int) then
        (if state.scrollY + (r : Int) = state.cursorLine
          then ColorToANSIFg styles.theme.ui.lineNumberActive
          else ColorToANSIFg styles.theme.ui.lineNumber)
        ++ padLeftStr (itoaLocal (state.scrollY + (r : Int) + 1)) numWidth
        ++ resetCode ++ " "
      else ⟨List.replicate width ' '⟩) := by
    unfold renderNoWrap
    rw [List.getElem?_map, List.getElem?_range hr]
    rfl
  constructor
  · intro _ hin
    rw [hrow, if_pos hin]
  · intro hout
    rw [hrow, if_neg (by omega)]

/-- Witness for C8: a two-line document with the cursor on line 0 and no
    scrolling, in a width-5 gutter (numeral field 4) of height 3: row 0
    carries the active-colored numeral 1, row 2 is past the end and blank. -/
theorem renderNoWrap_rows_witness :
    (renderNoWrap demoStyles 5 4 3 gutterState)[0]? =
      some ((if gutterState.scrollY + ((0 : Nat) : Int) = gutterState.cursorLine
          then ColorToANSIFg demoStyles.theme.ui.lineNumberActive
          else ColorToANSIFg demoStyles.theme.ui.lineNumber)
        ++ padLeftStr (itoaLocal (gutterState.scrollY + ((0 : Nat) : Int) + 1)) 4
        ++ resetCode ++ " ") ∧
    (renderNoWrap demoStyles 5 4 3 gutterState)[2]? =
      some ⟨List.replicate 5 ' '⟩ :=
  ⟨(renderNoWrap_rows demoStyles 5 4 3 gutterState 0 (by decide)).1
      (by decide) (by decide),
   (renderNoWrap_rows demoStyles 5 4 3 gutterState 2 (by decide)).2 (by decide)⟩
